import Mathlib

/-!
# Verification of the backup-warden daemon

Shallow embedding of `src/main.rs` and `src/config.rs`: the configuration
type, the calendar-date logic (`is_last_day_of_month`), the retention
pruner (`cleanup_old_backups`), the path/label derivation of
`backup_folder`, the recursive copier (`copy_dir_all`), the startup check
(`backup_folders_exist`), and the control-loop step, together with
theorems settling the specification claims.
-/

namespace BackupWarden

/-! ## Configuration (src/config.rs)

`BackupWardenConfig` has a watch folder, a list of backup locations and a
`retention_days : usize` field; `usize` is embedded as `Nat`, so the type
itself admits `retention_days = 0` and no positivity check exists anywhere
in the source. -/

structure BackupWardenConfig where
  watch_folder : String
  backup_locations : List String
  retention_days : Nat

/-! ## Calendar dates (chrono `NaiveDate`, as used by `main.rs`)

`is_last_day_of_month` in the source computes `date + Duration::days(1)`
and compares the month numbers.  We embed a proleptic-Gregorian date as a
year (`Int`, chrono uses `i32`), month and day, with chrono's leap-year
rule and day-increment semantics. -/

structure NaiveDate where
  year : Int
  month : Nat
  day : Nat
deriving DecidableEq

def isLeapYear (y : Int) : Bool :=
  (y % 4 == 0 && y % 100 != 0) || (y % 400 == 0)

def daysInMonth (y : Int) (m : Nat) : Nat :=
  if m = 2 then (if isLeapYear y then 29 else 28)
  else if m = 4 ∨ m = 6 ∨ m = 9 ∨ m = 11 then 30
  else 31

/-- Computes `date + chrono::Duration::days(1)` on a valid date. -/
def nextDay (d : NaiveDate) : NaiveDate :=
  if d.day < daysInMonth d.year d.month then ⟨d.year, d.month, d.day + 1⟩
  else if d.month < 12 then ⟨d.year, d.month + 1, 1⟩
  else ⟨d.year + 1, 1, 1⟩

/-- Embeds `fn is_last_day_of_month(date) -> bool`: the month of `date + 1 day`
differs from the month of `date`. -/
def is_last_day_of_month (date : NaiveDate) : Bool :=
  (nextDay date).month != date.month

/-- A structurally valid calendar date. -/
def ValidDate (d : NaiveDate) : Prop :=
  1 ≤ d.month ∧ d.month ≤ 12 ∧ 1 ≤ d.day ∧ d.day ≤ daysInMonth d.year d.month

instance (d : NaiveDate) : Decidable (ValidDate d) := by
  unfold ValidDate; infer_instance

/-! ## Retention pruner (`cleanup_old_backups`)

For one location the source reads the entries of `Past 30 Days`, keeps the
directories, sorts them by path (all entries share the directory prefix,
so this is ascending name order), and when the count exceeds
`retention_days` removes the first `count - retention_days` of the sorted
list.  `sortedBackups`, `excessCount`, `deletedBackups` and
`remainingBackups` embed the sorted listing, the number of entries
removed, the removed entries and the surviving entries. -/

def sortedBackups (names : List String) : List String :=
  names.insertionSort (· ≤ ·)

def excessCount (names : List String) (retention_days : Nat) : Nat :=
  if names.length > retention_days then names.length - retention_days else 0

def deletedBackups (names : List String) (retention_days : Nat) : List String :=
  (sortedBackups names).take (excessCount names retention_days)

def remainingBackups (names : List String) (retention_days : Nat) : List String :=
  (sortedBackups names).drop (excessCount names retention_days)

/-- In `backup_folder` the cycle creates today's dated folder (a no-op when it already
exists, as `fs::create_dir_all` is) and `cleanup_old_backups` then prunes
the listing. -/
def insertDate (date : String) (names : List String) : List String :=
  if date ∈ names then names else date :: names

def backupThenPrune (date : String) (names : List String) (r : Nat) : List String :=
  remainingBackups (insertDate date names) r

/-! ## Backup producer paths (`backup_folder`)

`backup_folder` calls `Local::now()` once, formats the date with
`"%Y-%m-%d"` and the hour with `"%I %p"` (12-hour clock, zero padded,
with AM/PM), and derives, for every location,
`<location>/Past 30 Days/<date>/@<hour>`.  A `LocalTime` is the one
timestamp taken at the start of the cycle. -/

structure LocalTime where
  date : NaiveDate
  hour : Nat
deriving DecidableEq

def natPad2 (n : Nat) : String :=
  if n < 10 then "0" ++ toString n else toString n

def fmtYear (y : Int) : String :=
  if 0 ≤ y ∧ y < 10000 then
    (if y < 10 then "000" else if y < 100 then "00"
     else if y < 1000 then "0" else "") ++ toString y
  else toString y

/-- Embeds `now.format("%Y-%m-%d")`. -/
def fmtDate (d : NaiveDate) : String :=
  fmtYear d.year ++ "-" ++ natPad2 d.month ++ "-" ++ natPad2 d.day

def hour12 (h : Nat) : Nat :=
  if h % 12 = 0 then 12 else h % 12

def meridiem (h : Nat) : String :=
  if h < 12 then "AM" else "PM"

/-- Embeds `now.format("%I %p")`. -/
def fmtHour (h : Nat) : String :=
  natPad2 (hour12 h) ++ " " ++ meridiem h

/-- Embeds the interpolation of an "@" before the hour string: the hour folder name with its leading
separator. -/
def backupLabel (h : Nat) : String :=
  "@" ++ fmtHour h

/-- Embeds the joined path `location/Past 30 Days/date/@hour`. -/
def backup_dest_path (location : String) (now : LocalTime) : String :=
  location ++ "/Past 30 Days/" ++ fmtDate now.date ++ "/" ++ backupLabel now.hour

def backup_folder_paths (cfg : BackupWardenConfig) (now : LocalTime) : List String :=
  cfg.backup_locations.map (fun location => backup_dest_path location now)

/-! ## Backup producer operation order (`backup_folder` + `cleanup_old_backups`)

`backup_folder` first loops over all locations doing create+copy, and only
after that loop calls `cleanup_old_backups`, which itself loops over all
locations pruning each one.  `backup_folder_trace` records the order of
the filesystem-mutating calls. -/

inductive Action where
  | mirror (src dst : String)
  | prune (location : String)
deriving DecidableEq

def backup_folder_trace (cfg : BackupWardenConfig) (now : LocalTime) : List Action :=
  cfg.backup_locations.map
    (fun location => Action.mirror cfg.watch_folder (backup_dest_path location now))
  ++ cfg.backup_locations.map (fun location => Action.prune location)

/-- Modelled from the spec claim C4: each location is mirrored and then
immediately pruned before moving on to the next location. -/
def claimed_backup_trace (cfg : BackupWardenConfig) (now : LocalTime) : List Action :=
  cfg.backup_locations.flatMap (fun location =>
    [Action.mirror cfg.watch_folder (backup_dest_path location now),
     Action.prune location])

/-! ## Startup check (`backup_folders_exist` and `main`)

`main` runs one unconditional backup cycle before the loop iff
`backup_folders_exist` is false; the latter returns true iff some
location's `Past 30 Days` path exists and is a directory.  `existsDir`
abstracts the `exists() && is_dir()` query. -/

def backup_folders_exist (cfg : BackupWardenConfig) (existsDir : String → Bool) :
    Bool :=
  cfg.backup_locations.any (fun location => existsDir (location ++ "/Past 30 Days"))

/-- Number of initial (pre-loop) backup cycles `main` runs. -/
def startup_backup_count (cfg : BackupWardenConfig) (existsDir : String → Bool) :
    Nat :=
  if backup_folders_exist cfg existsDir then 0 else 1

/-! ## Directory-entry reads during pruning (`cleanup_old_backups`)

Reading `Past 30 Days` yields, per entry, either an error (dropped by
`.filter_map(Result::ok)`) or a name with a `file_type()` result; a
`file_type()` error is mapped to `false` by `.unwrap_or(false)`.  Only
entries whose file type was read and is a directory are collected. -/

inductive EntryRead where
  | err
  | entry (name : String) (isDirResult : Option Bool)
deriving DecidableEq

def collectDailyFolders (es : List EntryRead) : List String :=
  es.filterMap (fun e =>
    match e with
    | .err => none
    | .entry n r => if r = some true then some n else none)

/-! ## Fatal errors (`expect` panics) and the control loop

Every filesystem call whose failure the source handles with `expect` is
modelled through an `FsOracle` saying which calls succeed; a panic is an
`Except.error` carrying the `expect` message, which terminates the whole
process.  A watch error received from the channel is only printed. -/

structure FsOracle where
  createDir : String → Bool
  copyTree : String → Bool
  readPast30 : String → Bool
  entriesOf : String → List EntryRead
  removeEntry : String → String → Bool

def runAll (f : String → Except String Unit) : List String → Except String Unit
  | [] => .ok ()
  | l :: rest =>
    match f l with
    | .ok _ => runAll f rest
    | .error e => .error e

def removeAll (o : FsOracle) (location : String) :
    List String → Except String Unit
  | [] => .ok ()
  | v :: rest =>
    if o.removeEntry location v then removeAll o location rest
    else .error "Failed to remove old backup"

/-- Embeds one location's pass of `cleanup_old_backups`: `read_dir` failure
panics, then each selected old entry is removed, a removal failure
panicking. -/
def cleanup_location_run (o : FsOracle) (retention_days : Nat)
    (location : String) : Except String Unit :=
  if o.readPast30 location then
    removeAll o location
      (deletedBackups (collectDailyFolders (o.entriesOf location)) retention_days)
  else .error "Failed to read backup directory"

def cleanup_old_backups_run (cfg : BackupWardenConfig) (o : FsOracle) :
    Except String Unit :=
  runAll (cleanup_location_run o cfg.retention_days) cfg.backup_locations

/-- Embeds one location's create+copy step of `backup_folder`. -/
def backup_location_run (o : FsOracle) (now : LocalTime) (location : String) :
    Except String Unit :=
  if o.createDir (backup_dest_path location now) then
    if o.copyTree (backup_dest_path location now) then .ok ()
    else .error "Failed to copy files"
  else .error "Failed to create backup directory"

def backup_folder_run (cfg : BackupWardenConfig) (now : LocalTime)
    (o : FsOracle) : Except String Unit :=
  match runAll (backup_location_run o now) cfg.backup_locations with
  | .ok _ => cleanup_old_backups_run cfg o
  | .error e => .error e

def snapshot_dest_path (location : String) (date : String) : String :=
  location ++ "/Monthly Snapshots/" ++ date

/-- Embeds one location's step of `create_monthly_snapshot`. -/
def snapshot_location_run (o : FsOracle) (date : String) (location : String) :
    Except String Unit :=
  if o.createDir (snapshot_dest_path location date) then
    if o.copyTree (snapshot_dest_path location date) then .ok ()
    else .error "Failed to copy files to monthly snapshot"
  else .error "Failed to create monthly snapshot directory"

def create_monthly_snapshot_run (cfg : BackupWardenConfig) (date : String)
    (o : FsOracle) : Except String Unit :=
  runAll (snapshot_location_run o date) cfg.backup_locations

inductive EventKind where
  | create
  | modify
  | remove
  | other
deriving DecidableEq

inductive RecvOutcome where
  | event (kind : EventKind)
  | watchErr (msg : String)
  | timeout
deriving DecidableEq

/-- Embeds the match in `handle_event`: only create, modify and remove
events trigger a backup. -/
def relevantEvent (k : EventKind) : Bool :=
  match k with
  | .create => true
  | .modify => true
  | .remove => true
  | .other => false

/-- Embeds the tail of each loop iteration: the unconditional
last-day-of-month check and possible snapshot cycle.  The `Bool` payload
records whether a backup cycle ran this iteration. -/
def snapshot_check (cfg : BackupWardenConfig) (o : FsOracle)
    (today : NaiveDate) (didBackup : Bool) : Except String Bool :=
  if is_last_day_of_month today then
    match create_monthly_snapshot_run cfg (fmtDate today) o with
    | .ok _ => .ok didBackup
    | .error e => .error e
  else .ok didBackup

/-- Embeds one iteration of the `loop` in `main`: receive an event, a
watch error (only printed) or a timeout, back up on relevant events, then
do the snapshot check. -/
def loop_iter (cfg : BackupWardenConfig) (o : FsOracle) (recv : RecvOutcome)
    (today : NaiveDate) (now : LocalTime) : Except String Bool :=
  match recv with
  | .event k =>
    if relevantEvent k then
      match backup_folder_run cfg now o with
      | .ok _ => snapshot_check cfg o today true
      | .error e => .error e
    else snapshot_check cfg o today false
  | .watchErr _ => snapshot_check cfg o today false
  | .timeout => snapshot_check cfg o today false

/-! ## Persisted per-location state

For claim C5 the on-disk state of one location is abstracted to the set
of dated entries under `Past 30 Days` and under `Monthly Snapshots`; a
system state maps each location root to its `LocState`.  The operations
below are the state transformers of `backup_folder`,
`cleanup_old_backups`, `create_monthly_snapshot` and one loop
iteration. -/

structure LocState where
  past30 : List String
  monthly : List String

def updateLoc (σ : String → LocState) (location : String) (s : LocState) :
    String → LocState :=
  fun l => if l = location then s else σ l

def applyAll (f : LocState → LocState) (locs : List String)
    (σ : String → LocState) : String → LocState :=
  match locs with
  | [] => σ
  | location :: rest => applyAll f rest (updateLoc σ location (f (σ location)))

/-- One location's pruning: only the `Past 30 Days` listing changes. -/
def pruneLoc (retention_days : Nat) (s : LocState) : LocState :=
  ⟨remainingBackups s.past30 retention_days, s.monthly⟩

/-- One location's backup materialization: today's dated folder is
created under `Past 30 Days`. -/
def backupCreateLoc (date : String) (s : LocState) : LocState :=
  ⟨insertDate date s.past30, s.monthly⟩

/-- One location's snapshot: the date folder is created (or overwritten
in place) under `Monthly Snapshots`. -/
def snapshotLoc (date : String) (s : LocState) : LocState :=
  ⟨s.past30, insertDate date s.monthly⟩

def backup_folder_state (cfg : BackupWardenConfig) (date : String)
    (σ : String → LocState) : String → LocState :=
  applyAll (pruneLoc cfg.retention_days) cfg.backup_locations
    (applyAll (backupCreateLoc date) cfg.backup_locations σ)

def create_monthly_snapshot_state (cfg : BackupWardenConfig) (date : String)
    (σ : String → LocState) : String → LocState :=
  applyAll (snapshotLoc date) cfg.backup_locations σ

def recv_state (cfg : BackupWardenConfig) (date : String)
    (σ : String → LocState) : RecvOutcome → (String → LocState)
  | .event k => if relevantEvent k then backup_folder_state cfg date σ else σ
  | .watchErr _ => σ
  | .timeout => σ

def loop_iter_state (cfg : BackupWardenConfig) (recv : RecvOutcome)
    (today : NaiveDate) (date : String) (σ : String → LocState) :
    String → LocState :=
  if is_last_day_of_month today then
    create_monthly_snapshot_state cfg (fmtDate today) (recv_state cfg date σ recv)
  else recv_state cfg date σ recv

/-! ## Directory mirror (`copy_dir_all`)

A filesystem tree is a file with byte contents or a directory with named
children.  `copy_dir_all src dst` embeds `fn copy_dir_all(src, dst)`:
`fs::create_dir_all(dst)` (fails on an existing file, creates a missing
directory), then for each entry of `src`, recursion for a directory entry
and `fs::copy` for a file entry (which overwrites an existing file but
fails onto an existing directory).  `none` is an I/O error aborting the
copy; on success the result is the new destination tree, which keeps
destination entries absent from the source. -/

inductive FsTree where
  | file (contents : List Nat) : FsTree
  | dir (children : List (String × FsTree)) : FsTree

def getChild (cs : List (String × FsTree)) (n : String) : Option FsTree :=
  match cs with
  | [] => none
  | (m, t) :: rest => if m = n then some t else getChild rest n

def setChild (cs : List (String × FsTree)) (n : String) (t : FsTree) :
    List (String × FsTree) :=
  match cs with
  | [] => [(n, t)]
  | (m, u) :: rest => if m = n then (m, t) :: rest else (m, u) :: setChild rest n t

mutual

def copy_dir_all (src : FsTree) (dst : Option FsTree) : Option FsTree :=
  match src with
  | .file _ => none
  | .dir scs =>
    match dst with
    | some (.file _) => none
    | some (.dir dcs) => (copy_entries scs dcs).map FsTree.dir
    | none => (copy_entries scs []).map FsTree.dir

def copy_entries (scs dcs : List (String × FsTree)) :
    Option (List (String × FsTree)) :=
  match scs with
  | [] => some dcs
  | (n, t) :: rest =>
    match t with
    | .dir _ =>
      match copy_dir_all t (getChild dcs n) with
      | none => none
      | some t2 => copy_entries rest (setChild dcs n t2)
    | .file c =>
      match getChild dcs n with
      | some (.dir _) => none
      | _ => copy_entries rest (setChild dcs n (.file c))

end

/-- Well-formedness of a tree as produced by a real filesystem: the entry
names of every directory listing are distinct. -/
inductive WF : FsTree → Prop
  | file (c : List Nat) : WF (.file c)
  | dir (cs : List (String × FsTree)) :
      (cs.map Prod.fst).Nodup → (∀ p ∈ cs, WF p.2) → WF (.dir cs)

/-- A sample source tree for evaluating the mirror on a concrete input. -/
def sampleTree : FsTree :=
  .dir [("a", .file [1]), ("sub", .dir [("b", .file [2])])]

/-! ## Theorems -/

theorem getChild_setChild_self (cs : List (String × FsTree)) (n : String)
    (t : FsTree) : getChild (setChild cs n t) n = some t := by
  induction cs with
  | nil => simp [getChild, setChild]
  | cons p rest ih =>
    obtain ⟨m, u⟩ := p
    rw [setChild]
    by_cases hm : m = n
    · rw [if_pos hm, getChild, if_pos hm]
    · rw [if_neg hm, getChild, if_neg hm]
      exact ih

theorem getChild_setChild_ne (cs : List (String × FsTree)) (n m : String)
    (t : FsTree) (hmn : m ≠ n) :
    getChild (setChild cs n t) m = getChild cs m := by
  induction cs with
  | nil =>
    rw [setChild, getChild, getChild, if_neg (fun e => hmn e.symm)]
    rw [getChild]
  | cons p rest ih =>
    obtain ⟨k, u⟩ := p
    rw [setChild]
    by_cases hk : k = n
    · rw [if_pos hk, getChild, getChild, if_neg (by rw [hk]; exact fun e => hmn e.symm),
        if_neg (by rw [hk]; exact fun e => hmn e.symm)]
    · rw [if_neg hk, getChild, getChild]
      by_cases hkm : k = m
      · rw [if_pos hkm, if_pos hkm]
      · rw [if_neg hkm, if_neg hkm]
        exact ih

theorem setChild_self (cs : List (String × FsTree)) (n : String) (t : FsTree)
    (h : getChild cs n = some t) : setChild cs n t = cs := by
  induction cs with
  | nil => exact absurd h (by rw [getChild]; simp)
  | cons p rest ih =>
    obtain ⟨m, u⟩ := p
    rw [getChild] at h
    rw [setChild]
    by_cases hm : m = n
    · rw [if_pos hm] at h
      rw [if_pos hm]
      have : u = t := by injection h
      rw [this]
    · rw [if_neg hm] at h
      rw [if_neg hm, ih h]

theorem copy_entries_frame (scs : List (String × FsTree)) :
    ∀ (dcs d : List (String × FsTree)) (m : String),
      copy_entries scs dcs = some d → m ∉ scs.map Prod.fst →
      getChild d m = getChild dcs m := by
  induction scs with
  | nil =>
    intro dcs d m h hm
    rw [copy_entries] at h
    have : dcs = d := by injection h
    rw [this]
  | cons p rest ih =>
    obtain ⟨n, t⟩ := p
    intro dcs d m h hm
    have hmn : m ≠ n := fun e => hm (by rw [e]; exact List.mem_cons_self _ _)
    have hm2 : m ∉ rest.map Prod.fst := fun e => hm (List.mem_cons_of_mem _ e)
    cases t with
    | dir ch =>
      rw [copy_entries] at h
      cases hc : copy_dir_all (.dir ch) (getChild dcs n) with
      | none =>
        rw [hc] at h
        exact absurd h (by simp)
      | some t2 =>
        rw [hc] at h
        have h2 : copy_entries rest (setChild dcs n t2) = some d := h
        rw [ih (setChild dcs n t2) d m h2 hm2]
        exact getChild_setChild_ne dcs n m t2 hmn
    | file c =>
      rw [copy_entries] at h
      cases hg : getChild dcs n with
      | none =>
        rw [hg] at h
        have h2 : copy_entries rest (setChild dcs n (.file c)) = some d := h
        rw [ih (setChild dcs n (.file c)) d m h2 hm2]
        exact getChild_setChild_ne dcs n m (.file c) hmn
      | some u =>
        cases u with
        | file cc =>
          rw [hg] at h
          have h2 : copy_entries rest (setChild dcs n (.file c)) = some d := h
          rw [ih (setChild dcs n (.file c)) d m h2 hm2]
          exact getChild_setChild_ne dcs n m (.file c) hmn
        | dir ch =>
          rw [hg] at h
          exact absurd h (by simp)

theorem copy_idem_aux :
    ∀ (src : FsTree) (dst : Option FsTree),
      WF src → ∀ d, copy_dir_all src dst = some d →
        copy_dir_all src (some d) = some d := by
  intro src dst
  refine copy_dir_all.induct
    (fun src dst => WF src → ∀ d, copy_dir_all src dst = some d →
      copy_dir_all src (some d) = some d)
    (fun scs dcs => (scs.map Prod.fst).Nodup → (∀ p ∈ scs, WF p.2) →
      ∀ d, copy_entries scs dcs = some d → copy_entries scs d = some d)
    ?_ ?_ ?_ ?_ ?_ ?_ ?_ ?_ ?_ src dst
  · intro dst c _ d h
    rw [copy_dir_all] at h
    exact absurd h (by simp)
  · intro scs c _ d h
    rw [copy_dir_all] at h
    exact absurd h (by simp)
  · intro scs dcs ih hwf d h
    cases hwf with
    | dir _ hnd hwfc =>
      rw [copy_dir_all] at h
      cases hce : copy_entries scs dcs with
      | none =>
        rw [hce] at h
        exact absurd h (by simp)
      | some dcs1 =>
        rw [hce] at h
        have hd : FsTree.dir dcs1 = d := by
          have h2 : some (FsTree.dir dcs1) = some d := h
          injection h2
        rw [← hd, copy_dir_all, ih hnd hwfc dcs1 hce]
        rfl
  · intro scs ih hwf d h
    cases hwf with
    | dir _ hnd hwfc =>
      rw [copy_dir_all] at h
      cases hce : copy_entries scs [] with
      | none =>
        rw [hce] at h
        exact absurd h (by simp)
      | some dcs1 =>
        rw [hce] at h
        have hd : FsTree.dir dcs1 = d := by
          have h2 : some (FsTree.dir dcs1) = some d := h
          injection h2
        rw [← hd, copy_dir_all, ih hnd hwfc dcs1 hce]
        rfl
  · intro dcs _ _ d _
    rw [copy_entries]
  · intro dcs m rest ch hnone _ _ _ d h
    rw [copy_entries, hnone] at h
    exact absurd h (by simp)
  · intro dcs m rest ch t2 hsome ih1 ih2 hnd hwfc d h
    have hmnotin : m ∉ rest.map Prod.fst := (List.nodup_cons.mp hnd).1
    have hndr : (rest.map Prod.fst).Nodup := (List.nodup_cons.mp hnd).2
    have hwfch : WF (.dir ch) := hwfc _ (List.mem_cons_self _ _)
    have hwfr : ∀ p ∈ rest, WF p.2 := fun p hp => hwfc p (List.mem_cons_of_mem _ hp)
    rw [copy_entries, hsome] at h
    have h2 : copy_entries rest (setChild dcs m t2) = some d := h
    have hget : getChild d m = some t2 := by
      rw [copy_entries_frame rest (setChild dcs m t2) d m h2 hmnotin]
      exact getChild_setChild_self dcs m t2
    rw [copy_entries, hget, ih1 hwfch t2 hsome]
    show copy_entries rest (setChild d m t2) = some d
    rw [setChild_self d m t2 hget]
    exact ih2 hndr hwfr d h2
  · intro dcs m rest c ch hget hnd hwfc d h
    rw [copy_entries, hget] at h
    exact absurd h (by simp)
  · intro dcs m rest c hnodir ih hnd hwfc d h
    have hmnotin : m ∉ rest.map Prod.fst := (List.nodup_cons.mp hnd).1
    have hndr : (rest.map Prod.fst).Nodup := (List.nodup_cons.mp hnd).2
    have hwfr : ∀ p ∈ rest, WF p.2 := fun p hp => hwfc p (List.mem_cons_of_mem _ hp)
    rw [copy_entries] at h
    have h2 : copy_entries rest (setChild dcs m (.file c)) = some d := by
      cases hg : getChild dcs m with
      | none =>
        rw [hg] at h
        exact h
      | some u =>
        cases u with
        | file cc =>
          rw [hg] at h
          exact h
        | dir ch => exact absurd hg (hnodir ch)
    have hget : getChild d m = some (.file c) := by
      rw [copy_entries_frame rest (setChild dcs m (.file c)) d m h2 hmnotin]
      exact getChild_setChild_self dcs m (.file c)
    rw [copy_entries, hget]
    show copy_entries rest (setChild d m (.file c)) = some d
    rw [setChild_self d m (.file c) hget]
    exact ih hndr hwfr d h2

theorem runAll_ok_iff (f : String → Except String Unit) (ls : List String) :
    runAll f ls = .ok () ↔ ∀ l ∈ ls, f l = .ok () := by
  induction ls with
  | nil => simp [runAll]
  | cons l rest ih =>
    rw [runAll]
    cases hf : f l with
    | ok u =>
      cases u
      simp [List.forall_mem_cons, hf, ih]
    | error e => simp [List.forall_mem_cons, hf]

theorem removeAll_ok_iff (o : FsOracle) (location : String) (vs : List String) :
    removeAll o location vs = .ok () ↔
      ∀ v ∈ vs, o.removeEntry location v = true := by
  induction vs with
  | nil => simp [removeAll]
  | cons v rest ih =>
    rw [removeAll]
    by_cases hv : o.removeEntry location v = true
    · rw [if_pos hv]
      simp [List.forall_mem_cons, hv, ih]
    · rw [if_neg hv]
      simp [List.forall_mem_cons, hv]

theorem backup_location_run_ok_iff (o : FsOracle) (now : LocalTime)
    (location : String) :
    backup_location_run o now location = .ok () ↔
      o.createDir (backup_dest_path location now) = true
      ∧ o.copyTree (backup_dest_path location now) = true := by
  by_cases h1 : o.createDir (backup_dest_path location now) = true
  · rw [backup_location_run, if_pos h1]
    by_cases h2 : o.copyTree (backup_dest_path location now) = true
    · rw [if_pos h2]
      simp [h1, h2]
    · rw [if_neg h2]
      simp [h1, h2]
  · rw [backup_location_run, if_neg h1]
    simp [h1]

theorem cleanup_location_run_ok_iff (o : FsOracle) (retention_days : Nat)
    (location : String) :
    cleanup_location_run o retention_days location = .ok () ↔
      o.readPast30 location = true
      ∧ ∀ v ∈ deletedBackups (collectDailyFolders (o.entriesOf location))
            retention_days,
          o.removeEntry location v = true := by
  by_cases h : o.readPast30 location = true
  · rw [cleanup_location_run, if_pos h]
    simp [h, removeAll_ok_iff]
  · rw [cleanup_location_run, if_neg h]
    simp [h]

theorem snapshot_location_run_ok_iff (o : FsOracle) (date : String)
    (location : String) :
    snapshot_location_run o date location = .ok () ↔
      o.createDir (snapshot_dest_path location date) = true
      ∧ o.copyTree (snapshot_dest_path location date) = true := by
  by_cases h1 : o.createDir (snapshot_dest_path location date) = true
  · rw [snapshot_location_run, if_pos h1]
    by_cases h2 : o.copyTree (snapshot_dest_path location date) = true
    · rw [if_pos h2]
      simp [h1, h2]
    · rw [if_neg h2]
      simp [h1, h2]
  · rw [snapshot_location_run, if_neg h1]
    simp [h1]

theorem snapshot_check_ok (cfg : BackupWardenConfig) (o : FsOracle)
    (today : NaiveDate) (d b : Bool) :
    snapshot_check cfg o today d = .ok b → b = d := by
  rw [snapshot_check]
  split
  · cases hs : create_monthly_snapshot_run cfg (fmtDate today) o with
    | ok u => simp [eq_comm]
    | error e => simp
  · simp [eq_comm]

/-- C6: running the directory mirror twice in succession from the same
unchanged source (a well-formed tree: directory listings have distinct
names) into the same destination yields a destination tree identical to
the one produced by a single copy: if the first run turns `dst` into `d`,
a second run on `d` returns `d` unchanged. -/
theorem copy_dir_all_idempotent (src : FsTree) (dst : Option FsTree)
    (hwf : WF src) (d : FsTree) (h : copy_dir_all src dst = some d) :
    copy_dir_all src (some d) = some d :=
  copy_idem_aux src dst hwf d h

theorem copy_dir_all_idempotent_witness :
    WF sampleTree ∧ copy_dir_all sampleTree none = some sampleTree
    ∧ copy_dir_all sampleTree (some sampleTree) = some sampleTree := by
  have hwf : WF sampleTree := by
    refine WF.dir _ (by decide) ?_
    intro p hp
    rcases List.mem_cons.mp hp with h1 | h1
    · subst h1
      exact WF.file _
    · rcases List.mem_cons.mp h1 with h2 | h2
      · subst h2
        refine WF.dir _ (by decide) ?_
        intro q hq
        rcases List.mem_cons.mp hq with h3 | h3
        · subst h3
          exact WF.file _
        · exact absurd h3 (by simp)
      · exact absurd h2 (by simp)
  exact ⟨hwf, rfl, copy_dir_all_idempotent sampleTree none hwf sampleTree rfl⟩

/-- C2: `is_last_day_of_month d` is true iff `d + 1 day` falls in a
different month than `d` (equivalently, iff `d.day` is the number of days
of `d`'s month); in particular it is true for non-leap Feb 28, leap
Feb 29 and Dec 31, and false for the day before each of these. -/
theorem is_last_day_of_month_iff (d : NaiveDate) (h : ValidDate d) :
    (is_last_day_of_month d = true ↔ (nextDay d).month ≠ d.month)
    ∧ (is_last_day_of_month d = true ↔ d.day = daysInMonth d.year d.month)
    ∧ is_last_day_of_month ⟨2023, 2, 28⟩ = true
    ∧ is_last_day_of_month ⟨2024, 2, 29⟩ = true
    ∧ is_last_day_of_month ⟨2024, 12, 31⟩ = true
    ∧ is_last_day_of_month ⟨2023, 2, 27⟩ = false
    ∧ is_last_day_of_month ⟨2024, 2, 28⟩ = false
    ∧ is_last_day_of_month ⟨2024, 12, 30⟩ = false := by
  obtain ⟨h1, h2, h3, h4⟩ := h
  refine ⟨by simp [is_last_day_of_month], ?_, by decide, by decide, by decide,
    by decide, by decide, by decide⟩
  by_cases hd : d.day < daysInMonth d.year d.month
  · rw [is_last_day_of_month, nextDay, if_pos hd]
    show (d.month != d.month) = true ↔ d.day = daysInMonth d.year d.month
    simp only [bne_self_eq_false, Bool.false_eq_true, false_iff]
    omega
  · by_cases hm12 : d.month < 12
    · rw [is_last_day_of_month, nextDay, if_neg hd, if_pos hm12]
      show (d.month + 1 != d.month) = true ↔ d.day = daysInMonth d.year d.month
      simp only [bne_iff_ne, ne_eq]
      constructor
      · intro _; omega
      · intro _; omega
    · rw [is_last_day_of_month, nextDay, if_neg hd, if_neg hm12]
      show ((1 : Nat) != d.month) = true ↔ d.day = daysInMonth d.year d.month
      simp only [bne_iff_ne, ne_eq]
      constructor
      · intro _; omega
      · intro _; omega

theorem is_last_day_of_month_iff_witness :
    ValidDate ⟨2024, 1, 31⟩ ∧
    ((is_last_day_of_month ⟨2024, 1, 31⟩ = true ↔
        (nextDay ⟨2024, 1, 31⟩).month ≠ (NaiveDate.mk 2024 1 31).month)
    ∧ (is_last_day_of_month ⟨2024, 1, 31⟩ = true ↔
        (NaiveDate.mk 2024 1 31).day = daysInMonth 2024 1)
    ∧ is_last_day_of_month ⟨2023, 2, 28⟩ = true
    ∧ is_last_day_of_month ⟨2024, 2, 29⟩ = true
    ∧ is_last_day_of_month ⟨2024, 12, 31⟩ = true
    ∧ is_last_day_of_month ⟨2023, 2, 27⟩ = false
    ∧ is_last_day_of_month ⟨2024, 2, 28⟩ = false
    ∧ is_last_day_of_month ⟨2024, 12, 30⟩ = false) :=
  ⟨by decide, is_last_day_of_month_iff ⟨2024, 1, 31⟩ (by decide)⟩

/-- C1: for a `Past 30 Days` listing of `k` distinct subdirectory names
and retention count `r`: the deleted and remaining entries partition the
listing; if `k > r` exactly `k - r` entries are deleted, the `r` remaining
ones are the lexicographically greatest (every deleted name is strictly
below every remaining name); if `k ≤ r` nothing is deleted; and in all
cases at most `r` entries remain. -/
theorem cleanup_old_backups_retention (names : List String) (r : Nat)
    (hnd : names.Nodup) :
    (deletedBackups names r ++ remainingBackups names r).Perm names
    ∧ (names.length > r →
        (deletedBackups names r).length = names.length - r
        ∧ (remainingBackups names r).length = r
        ∧ ∀ x ∈ deletedBackups names r, ∀ y ∈ remainingBackups names r, x < y)
    ∧ (names.length ≤ r → deletedBackups names r = [])
    ∧ (remainingBackups names r).length ≤ r := by
  have hperm : (sortedBackups names).Perm names :=
    List.perm_insertionSort _ _
  have hlen : (sortedBackups names).length = names.length := hperm.length_eq
  have hsorted : (sortedBackups names).Sorted (· ≤ ·) :=
    List.sorted_insertionSort _ _
  have hnodup : (sortedBackups names).Nodup := hperm.symm.nodup hnd
  have hlt : (sortedBackups names).Sorted (· < ·) := hsorted.lt_of_le hnodup
  refine ⟨?_, fun hgt => ⟨?_, ?_, ?_⟩, fun hle => ?_, ?_⟩
  · rw [deletedBackups, remainingBackups, List.take_append_drop]
    exact hperm
  · rw [deletedBackups, List.length_take, hlen, excessCount, if_pos hgt]
    omega
  · rw [remainingBackups, List.length_drop, hlen, excessCount, if_pos hgt]
    omega
  · intro x hx y hy
    have hpw : List.Pairwise (· < ·)
        (deletedBackups names r ++ remainingBackups names r) := by
      rw [deletedBackups, remainingBackups, List.take_append_drop]
      exact hlt
    exact (List.pairwise_append.mp hpw).2.2 x hx y hy
  · rw [deletedBackups, excessCount, if_neg (by omega), List.take_zero]
  · rw [remainingBackups, List.length_drop, hlen, excessCount]
    split <;> omega

theorem cleanup_old_backups_retention_witness :
    ((["2024-01-01", "2024-01-02", "2024-01-03"] : List String).Nodup) ∧
    ((deletedBackups ["2024-01-01", "2024-01-02", "2024-01-03"] 2
        ++ remainingBackups ["2024-01-01", "2024-01-02", "2024-01-03"] 2).Perm
        ["2024-01-01", "2024-01-02", "2024-01-03"]
    ∧ ((["2024-01-01", "2024-01-02", "2024-01-03"] : List String).length > 2 →
        (deletedBackups ["2024-01-01", "2024-01-02", "2024-01-03"] 2).length
          = (["2024-01-01", "2024-01-02", "2024-01-03"] : List String).length - 2
        ∧ (remainingBackups ["2024-01-01", "2024-01-02", "2024-01-03"] 2).length = 2
        ∧ ∀ x ∈ deletedBackups ["2024-01-01", "2024-01-02", "2024-01-03"] 2,
            ∀ y ∈ remainingBackups ["2024-01-01", "2024-01-02", "2024-01-03"] 2, x < y)
    ∧ ((["2024-01-01", "2024-01-02", "2024-01-03"] : List String).length ≤ 2 →
        deletedBackups ["2024-01-01", "2024-01-02", "2024-01-03"] 2 = [])
    ∧ (remainingBackups ["2024-01-01", "2024-01-02", "2024-01-03"] 2).length ≤ 2) :=
  ⟨by decide, cleanup_old_backups_retention
    ["2024-01-01", "2024-01-02", "2024-01-03"] 2 (by decide)⟩

/-- C10: the configuration type admits `retention_days = 0` (the field is
a `usize` embedded as `Nat`, with no positivity check), and a pruning pass
with retention 0 over `k ≥ 1` dated subdirectories deletes all of them —
including the dated folder the same backup cycle just created. -/
theorem zero_retention_deletes_all (names : List String) (date : String)
    (h : 1 ≤ names.length) :
    (∃ cfg : BackupWardenConfig, cfg.retention_days = 0)
    ∧ remainingBackups names 0 = []
    ∧ (deletedBackups names 0).length = names.length
    ∧ (deletedBackups names 0).Perm names
    ∧ backupThenPrune date names 0 = []
    ∧ date ∈ deletedBackups (insertDate date names) 0 := by
  have key : ∀ l : List String, remainingBackups l 0 = []
      ∧ (deletedBackups l 0).Perm l := by
    intro l
    have hperm : (sortedBackups l).Perm l := List.perm_insertionSort _ _
    have hlen : (sortedBackups l).length = l.length := hperm.length_eq
    have hex : excessCount l 0 = l.length := by
      rw [excessCount]; split <;> omega
    constructor
    · rw [remainingBackups, hex, List.drop_eq_nil_iff]
      omega
    · rw [deletedBackups, hex, ← hlen, List.take_length]
      exact hperm
  refine ⟨⟨⟨"", [], 0⟩, rfl⟩, (key names).1, ?_, (key names).2, ?_, ?_⟩
  · exact ((key names).2.length_eq)
  · rw [backupThenPrune]; exact (key _).1
  · have := (key (insertDate date names)).2
    refine this.mem_iff.mpr ?_
    rw [insertDate]
    split
    · assumption
    · exact List.mem_cons_self _ _

/-- C3: in one `backup_folder` cycle every configured location receives
the same date and hour label (the timestamp is taken once); each
destination is `<location>/Past 30 Days/<date>/<label>` where the label
starts with the separator `@` and carries an AM/PM marker; the 24 labels
of a day are pairwise distinct, and in particular 2pm (hour 14) and 2am
(hour 2) give different folder names. -/
theorem backup_folder_shared_label (cfg : BackupWardenConfig) (now : LocalTime) :
    (∀ location ∈ cfg.backup_locations,
        backup_dest_path location now
          = location ++ "/Past 30 Days/" ++ fmtDate now.date ++ "/"
              ++ backupLabel now.hour)
    ∧ (backupLabel now.hour).data.head? = some '@'
    ∧ (meridiem now.hour = "AM" ∨ meridiem now.hour = "PM")
    ∧ ((List.range 24).map backupLabel).Nodup
    ∧ backupLabel 14 ≠ backupLabel 2 := by
  refine ⟨fun location _ => rfl, rfl, ?_, by decide, by decide⟩
  rw [meridiem]
  split
  · exact Or.inl rfl
  · exact Or.inr rfl

theorem backup_folder_shared_label_witness :
    (∀ location ∈ ((⟨"W", ["A", "B"], 30⟩ : BackupWardenConfig)).backup_locations,
        backup_dest_path location ⟨⟨2024, 1, 15⟩, 14⟩
          = location ++ "/Past 30 Days/" ++ fmtDate ⟨2024, 1, 15⟩ ++ "/"
              ++ backupLabel 14)
    ∧ (backupLabel 14).data.head? = some '@'
    ∧ (meridiem 14 = "AM" ∨ meridiem 14 = "PM")
    ∧ ((List.range 24).map backupLabel).Nodup
    ∧ backupLabel 14 ≠ backupLabel 2 :=
  backup_folder_shared_label
    (⟨"W", ["A", "B"], 30⟩ : BackupWardenConfig)
    ⟨⟨2024, 1, 15⟩, 14⟩

/-- C4 (counterexample): with two backup locations, `backup_folder`
mirrors into both locations first and only then prunes both, so the
actual call order differs from the claimed per-location mirror-then-prune
interleaving. -/
theorem backup_folder_trace_counterexample :
    backup_folder_trace
        (⟨"W", ["A", "B"], 3⟩ : BackupWardenConfig)
        ⟨⟨2024, 1, 15⟩, 14⟩
      = [Action.mirror "W" "A/Past 30 Days/2024-01-15/@02 PM",
         Action.mirror "W" "B/Past 30 Days/2024-01-15/@02 PM",
         Action.prune "A", Action.prune "B"]
    ∧ backup_folder_trace
        (⟨"W", ["A", "B"], 3⟩ : BackupWardenConfig)
        ⟨⟨2024, 1, 15⟩, 14⟩
      ≠ claimed_backup_trace
        (⟨"W", ["A", "B"], 3⟩ : BackupWardenConfig)
        ⟨⟨2024, 1, 15⟩, 14⟩ := by
  constructor
  · rfl
  · decide

/-- C4 (amended): one `backup_folder` cycle mirrors the watch folder into
every configured location's destination, and after all locations are
mirrored invokes the retention pruner once for every location: the trace
splits into a mirror phase followed by a prune phase, and every location
gets exactly its mirror in the first phase and its prune in the second. -/
theorem backup_folder_trace_phases (cfg : BackupWardenConfig) (now : LocalTime) :
    ∃ mirrors prunes,
      backup_folder_trace cfg now = mirrors ++ prunes
      ∧ (∀ a ∈ mirrors, ∃ location ∈ cfg.backup_locations,
          a = Action.mirror cfg.watch_folder (backup_dest_path location now))
      ∧ (∀ a ∈ prunes, ∃ location ∈ cfg.backup_locations,
          a = Action.prune location)
      ∧ (∀ location ∈ cfg.backup_locations,
          Action.mirror cfg.watch_folder (backup_dest_path location now) ∈ mirrors
          ∧ Action.prune location ∈ prunes) := by
  refine ⟨cfg.backup_locations.map
      (fun location => Action.mirror cfg.watch_folder (backup_dest_path location now)),
    cfg.backup_locations.map (fun location => Action.prune location),
    rfl, ?_, ?_, ?_⟩
  · intro a ha
    obtain ⟨location, hloc, rfl⟩ := List.mem_map.mp ha
    exact ⟨location, hloc, rfl⟩
  · intro a ha
    obtain ⟨location, hloc, rfl⟩ := List.mem_map.mp ha
    exact ⟨location, hloc, rfl⟩
  · intro location hloc
    exact ⟨List.mem_map_of_mem _ hloc, List.mem_map_of_mem _ hloc⟩

theorem backup_folder_trace_phases_witness :
    ∃ mirrors prunes,
      backup_folder_trace
          (⟨"W", ["A", "B"], 3⟩ : BackupWardenConfig)
          ⟨⟨2024, 1, 15⟩, 14⟩
        = mirrors ++ prunes
      ∧ (∀ a ∈ mirrors, ∃ location ∈ (["A", "B"] : List String),
          a = Action.mirror "W" (backup_dest_path location ⟨⟨2024, 1, 15⟩, 14⟩))
      ∧ (∀ a ∈ prunes, ∃ location ∈ (["A", "B"] : List String),
          a = Action.prune location)
      ∧ (∀ location ∈ (["A", "B"] : List String),
          Action.mirror "W" (backup_dest_path location ⟨⟨2024, 1, 15⟩, 14⟩) ∈ mirrors
          ∧ Action.prune location ∈ prunes) :=
  backup_folder_trace_phases
    (⟨"W", ["A", "B"], 3⟩ : BackupWardenConfig)
    ⟨⟨2024, 1, 15⟩, 14⟩

/-- C8: at startup, before the wait loop, `main` runs exactly one
unconditional backup cycle iff no configured location has an existing
`Past 30 Days` directory, and runs none iff at least one location has
one. -/
theorem startup_initial_backup (cfg : BackupWardenConfig)
    (existsDir : String → Bool) :
    (startup_backup_count cfg existsDir = 1
      ↔ ∀ location ∈ cfg.backup_locations,
          existsDir (location ++ "/Past 30 Days") = false)
    ∧ (startup_backup_count cfg existsDir = 0
      ↔ ∃ location ∈ cfg.backup_locations,
          existsDir (location ++ "/Past 30 Days") = true) := by
  have key : backup_folders_exist cfg existsDir = true
      ↔ ∃ location ∈ cfg.backup_locations,
          existsDir (location ++ "/Past 30 Days") = true := by
    rw [backup_folders_exist]
    exact List.any_eq_true
  have keyf : backup_folders_exist cfg existsDir = false
      ↔ ∀ location ∈ cfg.backup_locations,
          existsDir (location ++ "/Past 30 Days") = false := by
    constructor
    · intro hb location hloc
      by_contra hc
      have htrue : existsDir (location ++ "/Past 30 Days") = true := by
        revert hc
        cases existsDir (location ++ "/Past 30 Days") <;> simp
      rw [key.mpr ⟨location, hloc, htrue⟩] at hb
      exact absurd hb (by decide)
    · intro hall
      by_contra hb
      have htrue : backup_folders_exist cfg existsDir = true := by
        revert hb
        cases backup_folders_exist cfg existsDir <;> simp
      obtain ⟨location, hloc, hdir⟩ := key.mp htrue
      rw [hall location hloc] at hdir
      exact absurd hdir (by decide)
  cases hb : backup_folders_exist cfg existsDir with
  | false =>
    have hcount : startup_backup_count cfg existsDir = 1 := by
      rw [startup_backup_count, hb]
      decide
    rw [hcount]
    refine ⟨⟨fun _ => keyf.mp hb, fun _ => rfl⟩, ?_, ?_⟩
    · intro h
      exact absurd h one_ne_zero
    · intro h
      rw [key.mpr h] at hb
      exact absurd hb (by decide)
  | true =>
    have hcount : startup_backup_count cfg existsDir = 0 := by
      rw [startup_backup_count, hb]
      decide
    rw [hcount]
    refine ⟨⟨fun h => absurd h zero_ne_one, fun h => ?_⟩,
      fun _ => key.mp hb, fun _ => rfl⟩
    rw [keyf.mpr h] at hb
    exact absurd hb (by decide)

theorem startup_initial_backup_witness :
    (startup_backup_count
        (⟨"W", ["A", "B"], 3⟩ : BackupWardenConfig)
        (fun _ => false) = 1
      ↔ ∀ location ∈ (["A", "B"] : List String),
          (fun (_ : String) => false) (location ++ "/Past 30 Days") = false)
    ∧ (startup_backup_count
        (⟨"W", ["A", "B"], 3⟩ : BackupWardenConfig)
        (fun _ => false) = 0
      ↔ ∃ location ∈ (["A", "B"] : List String),
          (fun (_ : String) => false) (location ++ "/Past 30 Days") = true) :=
  startup_initial_backup
    (⟨"W", ["A", "B"], 3⟩ : BackupWardenConfig)
    (fun _ => false)

theorem zero_retention_deletes_all_witness :
    (1 ≤ (["2024-01-05"] : List String).length) ∧
    ((∃ cfg : BackupWardenConfig, cfg.retention_days = 0)
    ∧ remainingBackups ["2024-01-05"] 0 = []
    ∧ (deletedBackups ["2024-01-05"] 0).length
        = (["2024-01-05"] : List String).length
    ∧ (deletedBackups ["2024-01-05"] 0).Perm ["2024-01-05"]
    ∧ backupThenPrune "2024-01-06" ["2024-01-05"] 0 = []
    ∧ "2024-01-06" ∈ deletedBackups (insertDate "2024-01-06" ["2024-01-05"]) 0) :=
  ⟨by decide, zero_retention_deletes_all ["2024-01-05"] "2024-01-06" (by decide)⟩

theorem applyAll_monthly_mono (f : LocState → LocState)
    (hf : ∀ s, s.monthly ⊆ (f s).monthly) :
    ∀ (locs : List String) (σ : String → LocState) (l : String),
      (σ l).monthly ⊆ (applyAll f locs σ l).monthly := by
  intro locs
  induction locs with
  | nil =>
    intro σ l
    exact List.Subset.refl _
  | cons location rest ih =>
    intro σ l
    rw [applyAll]
    refine List.Subset.trans ?_ (ih (updateLoc σ location (f (σ location))) l)
    rw [updateLoc]
    by_cases hl : l = location
    · rw [if_pos hl, hl]
      exact hf (σ location)
    · rw [if_neg hl]
      exact List.Subset.refl _

theorem monthly_subset_insertDate (d : String) (l : List String) :
    l ⊆ insertDate d l := by
  rw [insertDate]
  split
  · exact List.Subset.refl _
  · exact fun x hx => List.mem_cons_of_mem _ hx

/-- C5: no operation of the system — a backup cycle, a pruning pass, a
snapshot cycle or a whole control-loop iteration — ever deletes an entry
under any location's `Monthly Snapshots` namespace: every location's
`monthly` listing of the state before is contained in the one after. -/
theorem monthly_snapshots_append_only (cfg : BackupWardenConfig)
    (σ : String → LocState) (date : String) (recv : RecvOutcome)
    (today : NaiveDate) (r : Nat) (l : String) :
    (σ l).monthly ⊆ ((backup_folder_state cfg date σ) l).monthly
    ∧ (σ l).monthly ⊆ ((applyAll (pruneLoc r) cfg.backup_locations σ) l).monthly
    ∧ (σ l).monthly ⊆ ((create_monthly_snapshot_state cfg date σ) l).monthly
    ∧ (σ l).monthly ⊆ ((loop_iter_state cfg recv today date σ) l).monthly := by
  have hprune : ∀ rr (s : LocState), s.monthly ⊆ (pruneLoc rr s).monthly :=
    fun rr s => List.Subset.refl _
  have hcreate : ∀ (s : LocState), s.monthly ⊆ (backupCreateLoc date s).monthly :=
    fun s => List.Subset.refl _
  have hsnap : ∀ dd (s : LocState), s.monthly ⊆ (snapshotLoc dd s).monthly :=
    fun dd s => monthly_subset_insertDate dd s.monthly
  have hb : ∀ (τ : String → LocState) (x : String),
      (τ x).monthly ⊆ ((backup_folder_state cfg date τ) x).monthly := by
    intro τ x
    rw [backup_folder_state]
    exact List.Subset.trans
      (applyAll_monthly_mono _ hcreate cfg.backup_locations τ x)
      (applyAll_monthly_mono _ (hprune cfg.retention_days) cfg.backup_locations
        (applyAll (backupCreateLoc date) cfg.backup_locations τ) x)
  have hs : ∀ dd (τ : String → LocState) (x : String),
      (τ x).monthly ⊆ ((create_monthly_snapshot_state cfg dd τ) x).monthly := by
    intro dd τ x
    rw [create_monthly_snapshot_state]
    exact applyAll_monthly_mono _ (hsnap dd) cfg.backup_locations τ x
  have hrecv : (σ l).monthly ⊆ ((recv_state cfg date σ recv) l).monthly := by
    cases recv with
    | event k =>
      rw [recv_state]
      split
      · exact hb σ l
      · exact List.Subset.refl _
    | watchErr mm => exact List.Subset.refl _
    | timeout => exact List.Subset.refl _
  refine ⟨hb σ l, applyAll_monthly_mono _ (hprune r) cfg.backup_locations σ l,
    hs date σ l, ?_⟩
  rw [loop_iter_state]
  split
  · exact List.Subset.trans hrecv (hs (fmtDate today) (recv_state cfg date σ recv) l)
  · exact hrecv

/-- C7: any directory-creation or copy failure during a backup or
snapshot cycle, and any listing or removal failure during pruning, makes
the corresponding run fail (the `expect` panic aborting the process) —
the run succeeds iff every one of its filesystem calls succeeds, with no
retry; whereas a monitor-reported watch error in the loop is only logged:
the iteration runs no backup cycle, and on a day with no snapshot due it
completes with no filesystem activity at all. -/
theorem error_handling_fatal_vs_recoverable (cfg : BackupWardenConfig)
    (now : LocalTime) (o : FsOracle) (today : NaiveDate) (m : String) :
    (backup_folder_run cfg now o = .ok () ↔
      (∀ location ∈ cfg.backup_locations,
        o.createDir (backup_dest_path location now) = true
        ∧ o.copyTree (backup_dest_path location now) = true)
      ∧ cleanup_old_backups_run cfg o = .ok ())
    ∧ (cleanup_old_backups_run cfg o = .ok () ↔
        ∀ location ∈ cfg.backup_locations,
          o.readPast30 location = true
          ∧ ∀ v ∈ deletedBackups (collectDailyFolders (o.entriesOf location))
                cfg.retention_days,
              o.removeEntry location v = true)
    ∧ (create_monthly_snapshot_run cfg (fmtDate today) o = .ok () ↔
        ∀ location ∈ cfg.backup_locations,
          o.createDir (snapshot_dest_path location (fmtDate today)) = true
          ∧ o.copyTree (snapshot_dest_path location (fmtDate today)) = true)
    ∧ ((∃ location ∈ cfg.backup_locations,
          (o.createDir (backup_dest_path location now) = false
            ∨ o.copyTree (backup_dest_path location now) = false)) →
        ∃ e, backup_folder_run cfg now o = .error e)
    ∧ (∀ b, loop_iter cfg o (.watchErr m) today now = .ok b → b = false)
    ∧ (is_last_day_of_month today = false →
        loop_iter cfg o (.watchErr m) today now = .ok false
        ∧ loop_iter cfg o .timeout today now = .ok false) := by
  have hback : backup_folder_run cfg now o = .ok () ↔
      (∀ location ∈ cfg.backup_locations,
        o.createDir (backup_dest_path location now) = true
        ∧ o.copyTree (backup_dest_path location now) = true)
      ∧ cleanup_old_backups_run cfg o = .ok () := by
    rw [backup_folder_run]
    cases hr : runAll (backup_location_run o now) cfg.backup_locations with
    | ok u =>
      cases u
      have hall : ∀ location ∈ cfg.backup_locations,
          o.createDir (backup_dest_path location now) = true
          ∧ o.copyTree (backup_dest_path location now) = true :=
        fun location hl => (backup_location_run_ok_iff o now location).mp
          ((runAll_ok_iff _ _).mp hr location hl)
      exact ⟨fun hc => ⟨hall, hc⟩, fun hc => hc.2⟩
    | error e =>
      have hnot : ¬ (∀ location ∈ cfg.backup_locations,
          o.createDir (backup_dest_path location now) = true
          ∧ o.copyTree (backup_dest_path location now) = true) := by
        intro hall
        have hok : runAll (backup_location_run o now) cfg.backup_locations
            = .ok () := (runAll_ok_iff _ _).mpr fun location hl =>
          (backup_location_run_ok_iff o now location).mpr (hall location hl)
        rw [hok] at hr
        exact absurd hr (by simp)
      simp [hnot]
  have hclean : cleanup_old_backups_run cfg o = .ok () ↔
      ∀ location ∈ cfg.backup_locations,
        o.readPast30 location = true
        ∧ ∀ v ∈ deletedBackups (collectDailyFolders (o.entriesOf location))
              cfg.retention_days,
            o.removeEntry location v = true := by
    rw [cleanup_old_backups_run, runAll_ok_iff]
    exact ⟨fun h location hl =>
        (cleanup_location_run_ok_iff o cfg.retention_days location).mp
          (h location hl),
      fun h location hl =>
        (cleanup_location_run_ok_iff o cfg.retention_days location).mpr
          (h location hl)⟩
  have hsnap : create_monthly_snapshot_run cfg (fmtDate today) o = .ok () ↔
      ∀ location ∈ cfg.backup_locations,
        o.createDir (snapshot_dest_path location (fmtDate today)) = true
        ∧ o.copyTree (snapshot_dest_path location (fmtDate today)) = true := by
    rw [create_monthly_snapshot_run, runAll_ok_iff]
    exact ⟨fun h location hl =>
        (snapshot_location_run_ok_iff o (fmtDate today) location).mp
          (h location hl),
      fun h location hl =>
        (snapshot_location_run_ok_iff o (fmtDate today) location).mpr
          (h location hl)⟩
  refine ⟨hback, hclean, hsnap, ?_, ?_, ?_⟩
  · rintro ⟨location, hl, hfail⟩
    cases hr : backup_folder_run cfg now o with
    | ok u =>
      cases u
      obtain ⟨hc, _⟩ := (hback.mp hr).1 location hl
      rcases hfail with hf | hf
      · rw [hc] at hf
        exact absurd hf (by decide)
      · rw [((hback.mp hr).1 location hl).2] at hf
        exact absurd hf (by decide)
    | error e => exact ⟨e, rfl⟩
  · intro b hb
    rw [loop_iter] at hb
    exact snapshot_check_ok cfg o today false b hb
  · intro hn
    have hsc : snapshot_check cfg o today false = .ok false := by
      rw [snapshot_check, if_neg (by simp [hn])]
    exact ⟨by rw [loop_iter]; exact hsc, by rw [loop_iter]; exact hsc⟩

theorem error_handling_fatal_vs_recoverable_witness :
    ∃ e, backup_folder_run (⟨"W", ["A"], 3⟩ : BackupWardenConfig)
        ⟨⟨2024, 1, 15⟩, 14⟩
        ⟨fun _ => false, fun _ => false, fun _ => true, fun _ => [],
          fun _ _ => true⟩
      = .error e :=
  (error_handling_fatal_vs_recoverable (⟨"W", ["A"], 3⟩ : BackupWardenConfig)
      ⟨⟨2024, 1, 15⟩, 14⟩
      ⟨fun _ => false, fun _ => false, fun _ => true, fun _ => [],
        fun _ _ => true⟩
      ⟨2024, 1, 15⟩ "watch error").2.2.2.1
    ⟨"A", by decide, Or.inl rfl⟩

/-- C9: a per-entry failure while enumerating `Past 30 Days` never aborts
the pruning pass: an entry whose directory record errored, or whose file
type cannot be read (or is not a directory), is skipped — it is neither
counted toward the retention limit nor ever deleted — and the pass fails
only when opening the namespace itself fails or when removing a selected
entry fails. -/
theorem cleanup_skips_unreadable_entries (es₁ es₂ : List EntryRead)
    (n : String) (r : Option Bool) (o : FsOracle) (location : String)
    (retention_days : Nat) :
    collectDailyFolders (es₁ ++ EntryRead.err :: es₂)
      = collectDailyFolders (es₁ ++ es₂)
    ∧ (r ≠ some true →
        collectDailyFolders (es₁ ++ EntryRead.entry n r :: es₂)
          = collectDailyFolders (es₁ ++ es₂))
    ∧ deletedBackups (collectDailyFolders (o.entriesOf location)) retention_days
        ⊆ collectDailyFolders (o.entriesOf location)
    ∧ (cleanup_location_run o retention_days location = .ok ()
        ↔ o.readPast30 location = true
          ∧ ∀ v ∈ deletedBackups (collectDailyFolders (o.entriesOf location))
                retention_days,
              o.removeEntry location v = true) := by
  refine ⟨?_, ?_, ?_, cleanup_location_run_ok_iff o retention_days location⟩
  · simp [collectDailyFolders, List.filterMap_append, List.filterMap_cons]
  · intro hr
    simp [collectDailyFolders, List.filterMap_append, List.filterMap_cons, hr]
  · exact List.Subset.trans (List.take_subset _ _)
      (List.perm_insertionSort _ _).subset

theorem cleanup_skips_unreadable_entries_witness :
    ((some false : Option Bool) ≠ some true) ∧
    (collectDailyFolders ([EntryRead.entry "2024-01-01" (some true)]
        ++ EntryRead.err :: [EntryRead.entry "2024-01-02" (some true)])
      = collectDailyFolders ([EntryRead.entry "2024-01-01" (some true)]
          ++ [EntryRead.entry "2024-01-02" (some true)])
    ∧ ((some false : Option Bool) ≠ some true →
        collectDailyFolders ([EntryRead.entry "2024-01-01" (some true)]
            ++ EntryRead.entry "x" (some false)
              :: [EntryRead.entry "2024-01-02" (some true)])
          = collectDailyFolders ([EntryRead.entry "2024-01-01" (some true)]
              ++ [EntryRead.entry "2024-01-02" (some true)]))
    ∧ deletedBackups
        (collectDailyFolders
          ((⟨fun _ => true, fun _ => true, fun _ => true,
              fun _ => [EntryRead.entry "2024-01-01" (some true)],
              fun _ _ => true⟩ : FsOracle).entriesOf "L")) 0
        ⊆ collectDailyFolders
          ((⟨fun _ => true, fun _ => true, fun _ => true,
              fun _ => [EntryRead.entry "2024-01-01" (some true)],
              fun _ _ => true⟩ : FsOracle).entriesOf "L")
    ∧ (cleanup_location_run
          (⟨fun _ => true, fun _ => true, fun _ => true,
            fun _ => [EntryRead.entry "2024-01-01" (some true)],
            fun _ _ => true⟩ : FsOracle) 0 "L" = .ok ()
        ↔ (⟨fun _ => true, fun _ => true, fun _ => true,
              fun _ => [EntryRead.entry "2024-01-01" (some true)],
              fun _ _ => true⟩ : FsOracle).readPast30 "L" = true
          ∧ ∀ v ∈ deletedBackups
                (collectDailyFolders
                  ((⟨fun _ => true, fun _ => true, fun _ => true,
                      fun _ => [EntryRead.entry "2024-01-01" (some true)],
                      fun _ _ => true⟩ : FsOracle).entriesOf "L")) 0,
              (⟨fun _ => true, fun _ => true, fun _ => true,
                  fun _ => [EntryRead.entry "2024-01-01" (some true)],
                  fun _ _ => true⟩ : FsOracle).removeEntry "L" v = true)) :=
  ⟨by decide, cleanup_skips_unreadable_entries
    [EntryRead.entry "2024-01-01" (some true)]
    [EntryRead.entry "2024-01-02" (some true)] "x" (some false)
    (⟨fun _ => true, fun _ => true, fun _ => true,
      fun _ => [EntryRead.entry "2024-01-01" (some true)],
      fun _ _ => true⟩ : FsOracle) "L" 0⟩

end BackupWarden
